import Mathlib

/-!
Shallow embedding of the Calgooo fake server core (src/index.js):
macro totals aggregation, day classification (streak scoring),
streak aggregation, summary weeks-parameter handling, and meal
macro normalization. JavaScript numbers are modelled as exact
integers (ℤ) and rationals (ℚ); JS `Math.round` is `⌊x + 1/2⌋`.
-/

namespace Calgooo

/-- MacroSet record: integer counters, as stored by the server. -/
structure MacroSet where
  caloriesKcal : ℤ
  proteinG : ℤ
  carbsG : ℤ
  fatG : ℤ
  fiberG : ℤ

/-- The all-zero accumulator used by the reduce in totalsForDate. -/
def MacroSet.zero : MacroSet := ⟨0, 0, 0, 0, 0⟩

/-- One step of the reduce in totalsForDate: field-wise addition. -/
def MacroSet.add (acc m : MacroSet) : MacroSet :=
  ⟨acc.caloriesKcal + m.caloriesKcal, acc.proteinG + m.proteinG,
   acc.carbsG + m.carbsG, acc.fatG + m.fatG, acc.fiberG + m.fiberG⟩

/-- items.reduce over a list of meal macros (src/index.js totalsForDate). -/
def sumMacros (items : List MacroSet) : MacroSet :=
  items.foldl MacroSet.add MacroSet.zero

/-- In-memory store slice the streak core reads: the goal calories,
meals keyed by date, and the override map (src/index.js store). -/
structure Store where
  goalCalories : ℤ
  mealsByDate : String → List MacroSet
  streakOverrides : String → Option Bool

/-- totalsForDate(date): reduce the meals of a date to a MacroSet. -/
def totalsForDate (st : Store) (date : String) : MacroSet :=
  sumMacros (st.mealsByDate date)

/-- Result of dayStat: { date, hit, score }. -/
structure DayClassification where
  date : String
  hit : Bool
  score : ℤ

/-- The relative deviation computed inside dayStat:
|totals.caloriesKcal - goals.caloriesKcal| / Math.max(1, goals.caloriesKcal). -/
def dayDiff (goalCalories totalCalories : ℤ) : ℚ :=
  |(totalCalories : ℚ) - (goalCalories : ℚ)| / max 1 (goalCalories : ℚ)

/-- The sequential overwriting threshold cascade of dayStat, followed by
the defensive clamp Math.max(0, Math.min(4, Math.round(score))); the
score is already integral so Math.round is the identity. -/
def scoreCascade (diff : ℚ) : ℤ :=
  let s0 : ℤ := 1
  let s1 : ℤ := if diff ≤ 25/100 then 1 else s0
  let s2 : ℤ := if diff ≤ 12/100 then 2 else s1
  let s3 : ℤ := if diff ≤ 8/100 then 3 else s2
  let s4 : ℤ := if diff ≤ 5/100 then 4 else s3
  max 0 (min 4 s4)

/-- dayStat over explicit inputs: override for the date, goal calories,
and the aggregated totals for the date (src/index.js dayStat). -/
def dayStat (date : String) (override : Option Bool) (goalCalories : ℤ)
    (totals : MacroSet) : DayClassification :=
  let hasMeals : Bool := decide (0 < totals.caloriesKcal)
  let hit : Bool := override.getD hasMeals
  if hit then
    { date := date, hit := true,
      score := scoreCascade (dayDiff goalCalories totals.caloriesKcal) }
  else
    { date := date, hit := false, score := 0 }

/-- dayStat reading its inputs from the store, as the source does. -/
def dayStatS (st : Store) (date : String) : DayClassification :=
  dayStat date (st.streakOverrides date) st.goalCalories (totalsForDate st date)

/-- POST /v1/streaks/log: write an override for a date; with an explicit
boolean it is stored as given, otherwise the current effective hit is
toggled (src/index.js lines 361-366). -/
def setOverride (st : Store) (date : String) (hitArg : Option Bool) : Store :=
  let newVal : Bool :=
    match hitArg with
    | some b => b
    | none => !(dayStatS st date).hit
  { st with streakOverrides := fun d => if d = date then some newVal else st.streakOverrides d }

/-- clamp(v, a, b) = Math.max(a, Math.min(b, v)) (src/index.js utils). -/
def clamp (v a b : ℤ) : ℤ := max a (min b v)

/-- JS parseInt(s, 10) on the query strings the summary route receives:
optional sign, then the maximal leading run of decimal digits; none
(NaN) when no digit leads. -/
def jsParseInt (s : String) : Option ℤ :=
  let signAndDigits : Bool × List Char :=
    match s.data with
    | '-' :: rest => (true, rest)
    | '+' :: rest => (false, rest)
    | cs => (false, cs)
  let ds := signAndDigits.2.takeWhile Char.isDigit
  if ds.isEmpty then none
  else
    let n : ℕ := ds.foldl (fun acc c => acc * 10 + (c.toNat - 48)) 0
    some (if signAndDigits.1 then -(n : ℤ) else (n : ℤ))

/-- The weeks normalization in buildSummary:
clamp(parseInt(weeks, 10) || 12, 1, 26). A missing parameter takes the
default argument 12; NaN and 0 are both falsy, so both fall back to 12. -/
def weeksValue (weeks : Option String) : ℤ :=
  let parsed : Option ℤ :=
    match weeks with
    | none => some 12
    | some s => jsParseInt s
  let v : ℤ :=
    match parsed with
    | none => 12
    | some n => if n = 0 then 12 else n
  clamp v 1 26

/-- daysCount = w * 7 in buildSummary. -/
def daysCount (weeks : Option String) : ℤ := weeksValue weeks * 7

/- ------------------- streak aggregation ------------------- -/

/-- One iteration of the best-streak loop in buildSummary: the pair is
(cur, best); a hit increments cur and raises best, a miss resets cur. -/
def streakStep (p : ℤ × ℤ) (hit : Bool) : ℤ × ℤ :=
  if hit then (p.1 + 1, max p.2 (p.1 + 1)) else (0, p.2)

/-- The forward best-streak pass of buildSummary, starting cur = best = 0. -/
def bestStreakOf (hits : List Bool) : ℤ :=
  (hits.foldl streakStep (0, 0)).2

/-- The backward trailing-streak loop of buildSummary: count consecutive
hits from the most recent day until the first miss. -/
def trailingStreakOf (hits : List Bool) : ℤ :=
  (((hits.reverse).takeWhile id).length : ℤ)

/-- days.slice(-n): the last n elements (whole list when shorter). -/
def lastSlice (n : ℕ) (l : List Bool) : List Bool := l.drop (l.length - n)

/-- The count .filter(d => d.hit).length on a slice of hit flags. -/
def countHits (l : List Bool) : ℤ := ((l.filter id).length : ℤ)

/-- BADGE_Tiers = [7, 14, 30, 60, 90, 120]. -/
def BADGE_Tiers : List ℤ := [7, 14, 30, 60, 90, 120]

/-- The aggregate fields of the summary object built by buildSummary. -/
structure StreakSummary where
  currentStreak : ℤ
  bestStreak : ℤ
  hits7 : ℤ
  hits30 : ℤ
  earnedTiers : List ℤ

/-- The aggregation part of buildSummary over an already classified,
chronologically ordered day list (src/index.js lines 282-304). -/
def buildStreakSummary (days : List DayClassification) : StreakSummary :=
  let hits := days.map (fun d => d.hit)
  let best := bestStreakOf hits
  { currentStreak := trailingStreakOf hits
    bestStreak := best
    hits7 := countHits (lastSlice 7 hits)
    hits30 := countHits (lastSlice 30 hits)
    earnedTiers := BADGE_Tiers.filter (fun t => decide (t ≤ best)) }

/- ------------------- meal normalization ------------------- -/

/-- JS Math.round: round half toward positive infinity, ⌊x + 1/2⌋. -/
def jsRound (q : ℚ) : ℤ := ⌊q + 1/2⌋

/-- The raw macros object of a POST /v1/meals payload: each field may be
absent, and may be fractional or negative. -/
structure RawMacros where
  caloriesKcal : Option ℚ
  proteinG : Option ℚ
  carbsG : Option ℚ
  fatG : Option ℚ
  fiberG : Option ℚ

/-- Math.round(field || 0): absent (and zero) fall back to 0, then round. -/
def normMacroField (x : Option ℚ) : ℤ := jsRound (x.getD 0)

/-- The macro normalization applied by POST /v1/meals before storing. -/
def normalizeMacros (m : RawMacros) : MacroSet :=
  ⟨normMacroField m.caloriesKcal, normMacroField m.proteinG,
   normMacroField m.carbsG, normMacroField m.fatG, normMacroField m.fiberG⟩

/-- POST /v1/meals: unshift the normalized meal onto the list of the date. -/
def logMeal (st : Store) (date : String) (m : RawMacros) : Store :=
  { st with mealsByDate := fun d =>
      if d = date then normalizeMacros m :: st.mealsByDate d else st.mealsByDate d }

/-- Non-negativity of every MacroSet field. -/
def MacroSet.Nonneg (m : MacroSet) : Prop :=
  0 ≤ m.caloriesKcal ∧ 0 ≤ m.proteinG ∧ 0 ≤ m.carbsG ∧ 0 ≤ m.fatG ∧ 0 ≤ m.fiberG

/-- A fresh store: default goal 2200, no meals, no overrides. -/
def emptyStore : Store := ⟨2200, fun _ => [], fun _ => none⟩

/-- A store whose every date carries an override of true and no meals. -/
def overrideStore : Store := ⟨2200, fun _ => [], fun _ => some true⟩

/- ------------------- theorems: day classifier ------------------- -/

/-- The overwriting cascade collapses to the tightest-threshold form. -/
theorem scoreCascade_eq (d : ℚ) :
    scoreCascade d =
      (if d ≤ 5/100 then 4 else if d ≤ 8/100 then 3
       else if d ≤ 12/100 then 2 else 1) := by
  simp only [scoreCascade]
  split_ifs <;> rfl

/-- The cascade output is always one of 1, 2, 3, 4. -/
theorem scoreCascade_mem (d : ℚ) :
    scoreCascade d = 1 ∨ scoreCascade d = 2 ∨ scoreCascade d = 3 ∨ scoreCascade d = 4 := by
  rw [scoreCascade_eq]
  split_ifs <;> simp

/-- C1: for every classified day with hit = true, dayStat maps the
relative deviation diff = |totals.caloriesKcal - goal.caloriesKcal| /
max(1, goal.caloriesKcal) to the score 4 if diff ≤ 0.05, else 3 if
diff ≤ 0.08, else 2 if diff ≤ 0.12, else 1 if diff ≤ 0.25, and still
1 (not 0) for any diff > 0.25. -/
theorem dayStat_score_thresholds (date : String) (ov : Option Bool) (g : ℤ)
    (t : MacroSet) (h : (dayStat date ov g t).hit = true) :
    (dayStat date ov g t).score =
      (if dayDiff g t.caloriesKcal ≤ 5/100 then 4
       else if dayDiff g t.caloriesKcal ≤ 8/100 then 3
       else if dayDiff g t.caloriesKcal ≤ 12/100 then 2
       else 1) := by
  by_cases hb : ov.getD (decide (0 < t.caloriesKcal)) = true
  · simp only [dayStat, hb, if_true]
    exact scoreCascade_eq _
  · simp only [dayStat, Bool.not_eq_true] at hb
    simp [dayStat, hb] at h

/-- C1 witness: a concrete hit day (override true, totals 3000 vs goal
2000, diff = 1/2 > 0.25) scores 1. -/
theorem dayStat_score_thresholds_witness :
    (dayStat "2026-01-01" (some true) 2000 ⟨3000, 0, 0, 0, 0⟩).hit = true ∧
      (dayStat "2026-01-01" (some true) 2000 ⟨3000, 0, 0, 0, 0⟩).score =
        (if dayDiff 2000 3000 ≤ 5/100 then 4
         else if dayDiff 2000 3000 ≤ 8/100 then 3
         else if dayDiff 2000 3000 ≤ 12/100 then 2
         else 1) :=
  ⟨by decide, dayStat_score_thresholds "2026-01-01" (some true) 2000 ⟨3000, 0, 0, 0, 0⟩ (by decide)⟩

/-- C2: for every date, goal, totals and override, the classification
has an integer score in [0,4]; score > 0 implies hit = true; and
hit = false implies score = 0. -/
theorem dayStat_invariants (date : String) (ov : Option Bool) (g : ℤ) (t : MacroSet) :
    0 ≤ (dayStat date ov g t).score ∧ (dayStat date ov g t).score ≤ 4 ∧
      (0 < (dayStat date ov g t).score → (dayStat date ov g t).hit = true) ∧
      ((dayStat date ov g t).hit = false → (dayStat date ov g t).score = 0) := by
  by_cases hb : ov.getD (decide (0 < t.caloriesKcal)) = true
  · simp only [dayStat, hb, if_true]
    rcases scoreCascade_mem (dayDiff g t.caloriesKcal) with h | h | h | h <;>
      simp [h]
  · simp only [Bool.not_eq_true] at hb
    simp [dayStat, hb]

/-- C2 witness: the invariants instantiated at a concrete input. -/
theorem dayStat_invariants_witness :
    0 ≤ (dayStat "2026-01-02" none 2200 ⟨2200, 0, 0, 0, 0⟩).score ∧
      (dayStat "2026-01-02" none 2200 ⟨2200, 0, 0, 0, 0⟩).score ≤ 4 ∧
      (0 < (dayStat "2026-01-02" none 2200 ⟨2200, 0, 0, 0, 0⟩).score →
        (dayStat "2026-01-02" none 2200 ⟨2200, 0, 0, 0, 0⟩).hit = true) ∧
      ((dayStat "2026-01-02" none 2200 ⟨2200, 0, 0, 0, 0⟩).hit = false →
        (dayStat "2026-01-02" none 2200 ⟨2200, 0, 0, 0, 0⟩).score = 0) :=
  dayStat_invariants "2026-01-02" none 2200 ⟨2200, 0, 0, 0, 0⟩

/-- C3: an override present for a date fully determines hit; with an
override of true the score is still computed from the deviation formula;
and setOverride(date, true) followed immediately by classifying that
date yields hit = true. -/
theorem dayStat_override_determines (st : Store) (date : String) (b : Bool)
    (h : st.streakOverrides date = some b) :
    (dayStatS st date).hit = b ∧
      (b = true → (dayStatS st date).score =
        scoreCascade (dayDiff st.goalCalories (totalsForDate st date).caloriesKcal)) ∧
      (dayStatS (setOverride st date (some true)) date).hit = true := by
  refine ⟨?_, ?_, ?_⟩
  · simp only [dayStatS, h, dayStat, Option.getD_some]
    cases b <;> simp
  · intro hb
    subst hb
    simp [dayStatS, h, dayStat]
  · simp [dayStatS, setOverride, dayStat]

/-- C3 witness: a store with an override of true on every date and no
meals; hit is the override, score from the formula, and the round-trip
yields hit = true. -/
theorem dayStat_override_determines_witness :
    (dayStatS overrideStore "2026-01-05").hit = true ∧
      (true = true → (dayStatS overrideStore "2026-01-05").score =
        scoreCascade (dayDiff overrideStore.goalCalories
          (totalsForDate overrideStore "2026-01-05").caloriesKcal)) ∧
      (dayStatS (setOverride overrideStore "2026-01-05" (some true)) "2026-01-05").hit = true :=
  dayStat_override_determines overrideStore "2026-01-05" true rfl

/-- C7: a date with aggregated caloriesKcal = 0 and no override
classifies as hit = false with score = 0. -/
theorem dayStat_empty_day (st : Store) (date : String)
    (h1 : (totalsForDate st date).caloriesKcal = 0)
    (h2 : st.streakOverrides date = none) :
    (dayStatS st date).hit = false ∧ (dayStatS st date).score = 0 := by
  simp [dayStatS, dayStat, h1, h2]

/-- C7 witness: a fresh store classifies any date as a miss with score 0. -/
theorem dayStat_empty_day_witness :
    (dayStatS emptyStore "2026-01-06").hit = false ∧
      (dayStatS emptyStore "2026-01-06").score = 0 :=
  dayStat_empty_day emptyStore "2026-01-06" rfl rfl

/-- C9: the classifier is total and division-safe: the denominator
max(1, goal.caloriesKcal) is positive for every goal; with a zero goal
the deviation is the well-defined (large) ratio |totals.caloriesKcal|;
and the score is still in [0,4] at goal = 0. -/
theorem dayStat_zero_goal_safe (g c : ℤ) (date : String) (ov : Option Bool)
    (t : MacroSet) :
    0 < max (1 : ℚ) (g : ℚ) ∧ dayDiff 0 c = |(c : ℚ)| ∧
      0 ≤ (dayStat date ov 0 t).score ∧ (dayStat date ov 0 t).score ≤ 4 := by
  have hscore : 0 ≤ (dayStat date ov 0 t).score ∧ (dayStat date ov 0 t).score ≤ 4 := by
    by_cases hb : ov.getD (decide (0 < t.caloriesKcal)) = true
    · simp only [dayStat, hb, if_true]
      rcases scoreCascade_mem (dayDiff 0 t.caloriesKcal) with h | h | h | h <;>
        rw [h] <;> norm_num
    · simp only [Bool.not_eq_true] at hb
      simp [dayStat, hb]
  refine ⟨lt_of_lt_of_le one_pos (le_max_left 1 (g : ℚ)), ?_, hscore.1, hscore.2⟩
  unfold dayDiff
  norm_num

/-- C10: with an override of true, zero logged meals, and a goal of at
least 1 kcal, the day classifies as hit = true with score exactly 1, the
deviation ratio being exactly 1. -/
theorem dayStat_override_empty_scores_one (st : Store) (date : String)
    (h1 : st.streakOverrides date = some true)
    (h2 : st.mealsByDate date = [])
    (h3 : 1 ≤ st.goalCalories) :
    (dayStatS st date).hit = true ∧ (dayStatS st date).score = 1 ∧
      dayDiff st.goalCalories (totalsForDate st date).caloriesKcal = 1 := by
  have htot : (totalsForDate st date).caloriesKcal = 0 := by
    simp [totalsForDate, h2, sumMacros, MacroSet.zero]
  have hg : (1 : ℚ) ≤ (st.goalCalories : ℚ) := by exact_mod_cast h3
  have hdiff : dayDiff st.goalCalories (totalsForDate st date).caloriesKcal = 1 := by
    rw [htot]
    unfold dayDiff
    push_cast
    rw [max_eq_right hg, abs_of_nonpos (by linarith), neg_sub, sub_zero]
    exact div_self (by linarith)
  refine ⟨?_, ?_, hdiff⟩
  · simp [dayStatS, h1, dayStat]
  · simp only [dayStatS, h1, dayStat, Option.getD_some, if_true]
    rw [hdiff, scoreCascade_eq]
    norm_num

/-- C10 witness: override true, no meals, goal 2200 gives hit with score 1. -/
theorem dayStat_override_empty_scores_one_witness :
    (dayStatS overrideStore "2026-01-07").hit = true ∧
      (dayStatS overrideStore "2026-01-07").score = 1 ∧
      dayDiff overrideStore.goalCalories
        (totalsForDate overrideStore "2026-01-07").caloriesKcal = 1 :=
  dayStat_override_empty_scores_one overrideStore "2026-01-07" rfl rfl (by decide)

/-- C4 counterexample: a weeks parameter of "0" is NOT treated as 1 week
(7 days); parseInt gives 0, which is falsy, so the || 12 fallback fires
and 0 is treated as the default 12 weeks (84 days). -/
theorem weeks_zero_is_default :
    weeksValue (some "0") = 12 ∧ weeksValue (some "0") ≠ 1 ∧
      daysCount (some "0") = 84 ∧ daysCount (some "0") ≠ 7 := by
  refine ⟨rfl, ?_, rfl, ?_⟩ <;> decide

/-- C4 amended: the parsed weeks parameter is clamped into [1, 26];
"1000" gives 26 weeks (182 days) and unparsable "abc" gives the default
12 weeks (84 days), but "0" also falls back to the default 12 weeks
(84 days) because parseInt returns falsy 0, not to 1 week. -/
theorem weeks_clamping (w : Option String) :
    1 ≤ weeksValue w ∧ weeksValue w ≤ 26 ∧
      weeksValue (some "0") = 12 ∧ daysCount (some "0") = 84 ∧
      weeksValue (some "1000") = 26 ∧ daysCount (some "1000") = 182 ∧
      weeksValue (some "abc") = 12 ∧ daysCount (some "abc") = 84 ∧
      weeksValue none = 12 := by
  refine ⟨?_, ?_, rfl, rfl, rfl, rfl, rfl, rfl, rfl⟩
  · exact le_max_left 1 _
  · exact max_le (by norm_num) (min_le_left 26 _)

/-- C5 counterexample: POST /v1/meals accepts a payload whose macros are
present but negative; Math.round keeps the sign, so the stored meal and
the day totals carry a negative caloriesKcal, breaking the claimed
non-negativity invariant. -/
theorem meal_macros_can_be_negative :
    (normalizeMacros ⟨some (-100), none, none, none, none⟩).caloriesKcal = -100 ∧
      (totalsForDate (logMeal emptyStore "2026-01-08" ⟨some (-100), none, none, none, none⟩)
          "2026-01-08").caloriesKcal = -100 ∧
      ¬(0 ≤ (normalizeMacros ⟨some (-100), none, none, none, none⟩).caloriesKcal) := by
  have h : (normalizeMacros ⟨some (-100), none, none, none, none⟩).caloriesKcal = -100 := by
    norm_num [normalizeMacros, normMacroField, jsRound]
  refine ⟨h, ?_, by rw [h]; decide⟩
  simp only [totalsForDate, logMeal, emptyStore, if_pos rfl, sumMacros, List.foldl,
    MacroSet.add, MacroSet.zero]
  norm_num [normalizeMacros, normMacroField, jsRound]

/-- Rounding a defaulted payload field preserves non-negativity. -/
theorem normMacroField_nonneg (x : Option ℚ) (h : ∀ q, x = some q → 0 ≤ q) :
    0 ≤ normMacroField x := by
  cases x with
  | none => norm_num [normMacroField, jsRound]
  | some q =>
    have hq : 0 ≤ q := h q rfl
    rw [normMacroField, Option.getD_some, jsRound]
    rw [Int.le_floor]
    push_cast
    linarith

/-- Field-wise addition preserves non-negativity of every field. -/
theorem foldl_add_nonneg (l : List MacroSet) (acc : MacroSet)
    (hacc : acc.Nonneg) (hl : ∀ x ∈ l, x.Nonneg) :
    (l.foldl MacroSet.add acc).Nonneg := by
  induction l generalizing acc with
  | nil => exact hacc
  | cons m t ih =>
    have hm := hl m (List.mem_cons_self m t)
    refine ih (MacroSet.add acc m) ?_ (fun x hx => hl x (List.mem_cons_of_mem m hx))
    obtain ⟨a1, a2, a3, a4, a5⟩ := hacc
    obtain ⟨b1, b2, b3, b4, b5⟩ := hm
    exact ⟨by simpa [MacroSet.add] using add_nonneg a1 b1,
      by simpa [MacroSet.add] using add_nonneg a2 b2,
      by simpa [MacroSet.add] using add_nonneg a3 b3,
      by simpa [MacroSet.add] using add_nonneg a4 b4,
      by simpa [MacroSet.add] using add_nonneg a5 b5⟩

/-- C5 amended: stored macros are always integers (rounded), and they
are non-negative exactly when the present fields of the accepted payload
are non-negative (and the previously stored meals of the day are too);
a negative payload value is accepted and stored negative. -/
theorem stored_macros_nonneg (st : Store) (date : String) (m : RawMacros)
    (h1 : ∀ q, m.caloriesKcal = some q → 0 ≤ q)
    (h2 : ∀ q, m.proteinG = some q → 0 ≤ q)
    (h3 : ∀ q, m.carbsG = some q → 0 ≤ q)
    (h4 : ∀ q, m.fatG = some q → 0 ≤ q)
    (h5 : ∀ q, m.fiberG = some q → 0 ≤ q)
    (hst : ∀ x ∈ st.mealsByDate date, x.Nonneg) :
    (normalizeMacros m).Nonneg ∧
      (totalsForDate (logMeal st date m) date).Nonneg := by
  have hnorm : (normalizeMacros m).Nonneg :=
    ⟨normMacroField_nonneg _ h1, normMacroField_nonneg _ h2, normMacroField_nonneg _ h3,
     normMacroField_nonneg _ h4, normMacroField_nonneg _ h5⟩
  refine ⟨hnorm, ?_⟩
  simp only [totalsForDate, logMeal, if_pos rfl, sumMacros]
  refine foldl_add_nonneg _ MacroSet.zero ?_ ?_
  · exact ⟨le_refl 0, le_refl 0, le_refl 0, le_refl 0, le_refl 0⟩
  · intro x hx
    rcases List.mem_cons.mp hx with hx | hx
    · exact hx ▸ hnorm
    · exact hst x hx

/-- C5 amended witness: an all-absent payload on a fresh store stores
all-zero macros and all-zero totals. -/
theorem stored_macros_nonneg_witness :
    (normalizeMacros ⟨none, none, none, none, none⟩).Nonneg ∧
      (totalsForDate (logMeal emptyStore "2026-01-09" ⟨none, none, none, none, none⟩)
          "2026-01-09").Nonneg :=
  stored_macros_nonneg emptyStore "2026-01-09" ⟨none, none, none, none, none⟩
    (fun _ h => Option.noConfusion h) (fun _ h => Option.noConfusion h)
    (fun _ h => Option.noConfusion h) (fun _ h => Option.noConfusion h)
    (fun _ h => Option.noConfusion h) (fun x hx => absurd hx (List.not_mem_nil x))

/- ------------------- theorems: streak aggregation ------------------- -/

/-- The cur component of the best-streak loop ignores the best component. -/
theorem foldl_streakStep_fst (hits : List Bool) (c b : ℤ) :
    (hits.foldl streakStep (c, b)).1 =
      hits.foldl (fun t h => if h then t + 1 else 0) c := by
  induction hits generalizing c b with
  | nil => rfl
  | cons x t ih =>
    cases x <;> simp [List.foldl_cons, streakStep, ih]

/-- The trailing-streak count is at most the forward cur counter started
from any non-negative seed. -/
theorem trailing_le_foldl (hits : List Bool) :
    ∀ c : ℤ, 0 ≤ c →
      ((hits.reverse.takeWhile id).length : ℤ) ≤
        hits.foldl (fun t h => if h then t + 1 else 0) c := by
  induction hits using List.reverseRecOn with
  | nil => intro c hc; simpa using hc
  | append_singleton l x ih =>
    intro c hc
    rw [List.foldl_append, List.reverse_append]
    cases x with
    | false => simp
    | true =>
      simp only [List.reverse_singleton, List.singleton_append, List.takeWhile_cons,
        id_eq, if_true, List.length_cons, List.foldl_cons, List.foldl_nil]
      push_cast
      exact add_le_add_right (ih c hc) 1

/-- The best-streak loop keeps 0 ≤ cur ≤ best. -/
theorem streakStep_invariant (hits : List Bool) :
    ∀ c b : ℤ, 0 ≤ c → c ≤ b →
      0 ≤ (hits.foldl streakStep (c, b)).1 ∧
        (hits.foldl streakStep (c, b)).1 ≤ (hits.foldl streakStep (c, b)).2 := by
  induction hits with
  | nil => intro c b hc hcb; exact ⟨hc, hcb⟩
  | cons x t ih =>
    intro c b hc hcb
    cases x with
    | false =>
      simpa [List.foldl_cons, streakStep] using ih 0 b (le_refl 0) (le_trans hc hcb)
    | true =>
      simpa [List.foldl_cons, streakStep] using
        ih (c + 1) (max b (c + 1)) (by omega) (le_max_right b (c + 1))

/-- C6: the summary always satisfies currentStreak ≤ bestStreak. -/
theorem currentStreak_le_bestStreak (days : List DayClassification) :
    (buildStreakSummary days).currentStreak ≤ (buildStreakSummary days).bestStreak := by
  have h1 := trailing_le_foldl (days.map (fun d => d.hit)) 0 (le_refl 0)
  rw [← foldl_streakStep_fst (days.map (fun d => d.hit)) 0 0] at h1
  have h2 := (streakStep_invariant (days.map (fun d => d.hit)) 0 0 (le_refl 0) (le_refl 0)).2
  show trailingStreakOf (days.map (fun d => d.hit)) ≤ bestStreakOf (days.map (fun d => d.hit))
  unfold trailingStreakOf bestStreakOf
  exact le_trans h1 h2

/-- On an all-hit list the best-streak loop counts every day. -/
theorem foldl_streakStep_all_true (hits : List Bool) (h : ∀ x ∈ hits, x = true) :
    ∀ c : ℤ, hits.foldl streakStep (c, c) = (c + hits.length, c + hits.length) := by
  induction hits with
  | nil => intro c; simp
  | cons x t ih =>
    intro c
    have hx : x = true := h x (List.mem_cons_self x t)
    subst hx
    have ht : ∀ y ∈ t, y = true := fun y hy => h y (List.mem_cons_of_mem true hy)
    simp only [List.foldl_cons, streakStep, if_true]
    rw [max_eq_right (by omega : c ≤ c + 1)]
    rw [ih ht (c + 1)]
    simp only [List.length_cons]
    push_cast
    rw [Prod.mk.injEq]
    constructor <;> ring

/-- On an all-miss list the best component of the loop never moves. -/
theorem foldl_streakStep_all_false_snd (hits : List Bool) (h : ∀ x ∈ hits, x = false) :
    ∀ c b : ℤ, (hits.foldl streakStep (c, b)).2 = b := by
  induction hits with
  | nil => intro c b; rfl
  | cons x t ih =>
    intro c b
    have hx : x = false := h x (List.mem_cons_self x t)
    subst hx
    have ht : ∀ y ∈ t, y = false := fun y hy => h y (List.mem_cons_of_mem false hy)
    simp only [List.foldl_cons, streakStep, Bool.false_eq_true, if_false]
    exact ih ht 0 b

/-- takeWhile id of an all-false list is empty. -/
theorem takeWhile_id_all_false (l : List Bool) (h : ∀ x ∈ l, x = false) :
    l.takeWhile id = [] := by
  cases l with
  | nil => rfl
  | cons x t =>
    have hx : x = false := h x (List.mem_cons_self x t)
    subst hx
    rfl

/-- C8: earnedTiers is exactly [7,14,30,60,90,120] filtered to tiers at
most bestStreak; an all-hit window of length ≥ 120 earns all six tiers;
an all-miss window earns none, with all four counters 0. -/
theorem earnedTiers_spec (days : List DayClassification) :
    (buildStreakSummary days).earnedTiers =
      BADGE_Tiers.filter (fun t => decide (t ≤ (buildStreakSummary days).bestStreak)) ∧
      ((∀ d ∈ days, d.hit = true) → 120 ≤ days.length →
        (buildStreakSummary days).earnedTiers = [7, 14, 30, 60, 90, 120]) ∧
      ((∀ d ∈ days, d.hit = false) →
        (buildStreakSummary days).currentStreak = 0 ∧
          (buildStreakSummary days).bestStreak = 0 ∧
          (buildStreakSummary days).hits7 = 0 ∧
          (buildStreakSummary days).hits30 = 0 ∧
          (buildStreakSummary days).earnedTiers = []) := by
  refine ⟨rfl, ?_, ?_⟩
  · intro hall hlen
    have hmap : ∀ x ∈ days.map (fun d => d.hit), x = true := by
      intro x hx
      obtain ⟨d, hd, rfl⟩ := List.mem_map.mp hx
      exact hall d hd
    have hbest : bestStreakOf (days.map (fun d => d.hit)) = (days.length : ℤ) := by
      unfold bestStreakOf
      rw [foldl_streakStep_all_true _ hmap 0]
      simp [List.length_map]
    show BADGE_Tiers.filter
        (fun t => decide (t ≤ bestStreakOf (days.map (fun d => d.hit)))) = [7, 14, 30, 60, 90, 120]
    have hfull : BADGE_Tiers.filter
        (fun t => decide (t ≤ bestStreakOf (days.map (fun d => d.hit)))) = BADGE_Tiers := by
      refine List.filter_eq_self.mpr ?_
      intro a ha
      rw [decide_eq_true_eq, hbest]
      have h120 : (120 : ℤ) ≤ (days.length : ℤ) := by exact_mod_cast hlen
      simp only [BADGE_Tiers, List.mem_cons, List.not_mem_nil, or_false] at ha
      rcases ha with rfl | rfl | rfl | rfl | rfl | rfl <;> omega
    rw [hfull]
    rfl
  · intro hall
    have hmap : ∀ x ∈ days.map (fun d => d.hit), x = false := by
      intro x hx
      obtain ⟨d, hd, rfl⟩ := List.mem_map.mp hx
      exact hall d hd
    have hbest : bestStreakOf (days.map (fun d => d.hit)) = 0 :=
      foldl_streakStep_all_false_snd _ hmap 0 0
    refine ⟨?_, hbest, ?_, ?_, ?_⟩
    · show trailingStreakOf (days.map (fun d => d.hit)) = 0
      unfold trailingStreakOf
      rw [takeWhile_id_all_false _ (fun x hx => hmap x (List.mem_reverse.mp hx))]
      rfl
    · show countHits (lastSlice 7 (days.map (fun d => d.hit))) = 0
      unfold countHits lastSlice
      rw [List.filter_eq_nil_iff.mpr
        (fun a ha => by rw [id_eq, hmap a (List.mem_of_mem_drop ha)]; exact Bool.false_ne_true)]
      rfl
    · show countHits (lastSlice 30 (days.map (fun d => d.hit))) = 0
      unfold countHits lastSlice
      rw [List.filter_eq_nil_iff.mpr
        (fun a ha => by rw [id_eq, hmap a (List.mem_of_mem_drop ha)]; exact Bool.false_ne_true)]
      rfl
    · show BADGE_Tiers.filter
        (fun t => decide (t ≤ bestStreakOf (days.map (fun d => d.hit)))) = []
      rw [hbest]
      rfl

/-- C8 witness: a 120-day all-hit window earns all six tiers, and the
all-miss branch instantiated on the empty window gives zero counters. -/
theorem earnedTiers_spec_witness :
    (buildStreakSummary (List.replicate 120 ⟨"2026-01-10", true, 1⟩)).earnedTiers =
        [7, 14, 30, 60, 90, 120] ∧
      (buildStreakSummary ([] : List DayClassification)).bestStreak = 0 :=
  ⟨(earnedTiers_spec (List.replicate 120 ⟨"2026-01-10", true, 1⟩)).2.1
      (fun d hd => by rw [List.eq_of_mem_replicate hd]) (by simp),
    ((earnedTiers_spec ([] : List DayClassification)).2.2
      (fun d hd => absurd hd (List.not_mem_nil d))).2.1⟩

end Calgooo
